import Mathlib

/-!
Verification of the topology-building, document-synthesis and relevance-filter
logic of the Base-Rag-NLP repository (`src/config/RAGNLP.ts` and the loader it
contains).  The JSON configuration values handled by the code are embedded as
an inductive `Json` type; the JavaScript dynamic-typing conventions the code
relies on (truthiness, `typeof x === "object"`, optional chaining, `x || d`)
are embedded as explicit helper functions.
-/

/-- A JSON value as produced by `JSON.parse`.  Numbers are restricted to
integers, which covers every numeric value the analysed code inspects
(category codes, lengths and counts). -/
inductive Json where
  | null
  | bool (b : Bool)
  | num (n : Int)
  | str (s : String)
  | arr (elems : List Json)
  | obj (fields : List (String × Json))

instance : Inhabited Json := ⟨Json.null⟩

/-!
Equality of JSON values is decidable; the decision procedure below also embeds
the structural `===` / `SameValueZero` comparison the source applies to the
primitive values it compares.
-/

mutual

/-- Decide equality of two JSON values. -/
def jsonDecEq : (a b : Json) → Decidable (a = b)
  | .null, .null => isTrue rfl
  | .bool a, .bool b =>
    match decEq a b with
    | isTrue h => isTrue (congrArg Json.bool h)
    | isFalse h => isFalse (fun he => h (Json.bool.inj he))
  | .num a, .num b =>
    match decEq a b with
    | isTrue h => isTrue (congrArg Json.num h)
    | isFalse h => isFalse (fun he => h (Json.num.inj he))
  | .str a, .str b =>
    match decEq a b with
    | isTrue h => isTrue (congrArg Json.str h)
    | isFalse h => isFalse (fun he => h (Json.str.inj he))
  | .arr xs, .arr ys =>
    match jsonDecEqList xs ys with
    | isTrue h => isTrue (congrArg Json.arr h)
    | isFalse h => isFalse (fun he => h (Json.arr.inj he))
  | .obj fs, .obj gs =>
    match jsonDecEqFields fs gs with
    | isTrue h => isTrue (congrArg Json.obj h)
    | isFalse h => isFalse (fun he => h (Json.obj.inj he))
  | .null, .bool _ | .null, .num _ | .null, .str _ | .null, .arr _
  | .null, .obj _ | .bool _, .null | .bool _, .num _ | .bool _, .str _
  | .bool _, .arr _ | .bool _, .obj _ | .num _, .null | .num _, .bool _
  | .num _, .str _ | .num _, .arr _ | .num _, .obj _ | .str _, .null
  | .str _, .bool _ | .str _, .num _ | .str _, .arr _ | .str _, .obj _
  | .arr _, .null | .arr _, .bool _ | .arr _, .num _ | .arr _, .str _
  | .arr _, .obj _ | .obj _, .null | .obj _, .bool _ | .obj _, .num _
  | .obj _, .str _ | .obj _, .arr _ => isFalse nofun

/-- Decide equality of two JSON arrays elementwise. -/
def jsonDecEqList : (xs ys : List Json) → Decidable (xs = ys)
  | [], [] => isTrue rfl
  | [], _ :: _ => isFalse nofun
  | _ :: _, [] => isFalse nofun
  | x :: xs, y :: ys =>
    match jsonDecEq x y, jsonDecEqList xs ys with
    | isTrue h₁, isTrue h₂ => isTrue (by rw [h₁, h₂])
    | isFalse h₁, _ => isFalse (fun he => h₁ (List.cons.inj he).1)
    | _, isFalse h₂ => isFalse (fun he => h₂ (List.cons.inj he).2)

/-- Decide equality of two JSON record field lists, keys and values both. -/
def jsonDecEqFields : (fs gs : List (String × Json)) → Decidable (fs = gs)
  | [], [] => isTrue rfl
  | [], _ :: _ => isFalse nofun
  | _ :: _, [] => isFalse nofun
  | (k₁, v₁) :: fs, (k₂, v₂) :: gs =>
    match decEq k₁ k₂, jsonDecEq v₁ v₂, jsonDecEqFields fs gs with
    | isTrue h₁, isTrue h₂, isTrue h₃ => isTrue (by rw [h₁, h₂, h₃])
    | isFalse h₁, _, _ =>
        isFalse (fun he => h₁ (congrArg Prod.fst (List.cons.inj he).1))
    | _, isFalse h₂, _ =>
        isFalse (fun he => h₂ (congrArg Prod.snd (List.cons.inj he).1))
    | _, _, isFalse h₃ => isFalse (fun he => h₃ (List.cons.inj he).2)

end

instance : DecidableEq Json := jsonDecEq

/-- JavaScript truthiness of a value (`!x` in the source is `truthy x = false`). -/
def truthy : Json → Bool
  | .null => false
  | .bool b => b
  | .num n => n != 0
  | .str s => s != ""
  | .arr _ => true
  | .obj _ => true

/-- Truthiness of a possibly-undefined value (`none` models `undefined`). -/
def truthyOpt : Option Json → Bool
  | none => false
  | some v => truthy v

/-- Property access `x.k`: defined only on keyed records, `undefined` (`none`)
otherwise.  (`JSON.parse` keeps the last duplicate key, so lookup is unambiguous
on parsed values.) -/
def getField : Json → String → Option Json
  | .obj kvs, k => kvs.lookup k
  | _, _ => none

/-- `typeof x === "object"` in JavaScript: true for keyed records, arrays and
`null`. -/
def isObjectType : Json → Bool
  | .obj _ => true
  | .arr _ => true
  | .null => true
  | _ => false

/-- A keyed record (a JSON object). -/
def isKeyedRecord : Json → Bool
  | .obj _ => true
  | _ => false

/-- A JSON array. -/
def isArrayJson : Json → Bool
  | .arr _ => true
  | _ => false

/-- The element list of an array-valued field, `[]` otherwise. -/
def arrElems : Option Json → List Json
  | some (.arr xs) => xs
  | _ => []

/-- Optional chaining `x?.k`: short-circuits on `null`/`undefined`, ordinary
property access otherwise. -/
def optChain (x : Option Json) (k : String) : Option Json :=
  match x with
  | none => none
  | some .null => none
  | some v => getField v k

/-- The JavaScript `length` property of a value: array length, string length,
or an explicit `length` field of a record; `undefined` on other values. -/
def lengthProp : Json → Option Json
  | .arr xs => some (.num xs.length)
  | .str s => some (.num s.length)
  | .obj kvs => kvs.lookup "length"
  | _ => none

/-- `x?.length` for a possibly-undefined value. -/
def optLength (x : Option Json) : Option Json :=
  match x with
  | none => none
  | some .null => none
  | some v => lengthProp v

/-- `x || d` on a possibly-undefined value: `x` if truthy, `d` otherwise. -/
def jsOr (x : Option Json) (dflt : Json) : Json :=
  match x with
  | some v => if truthy v then v else dflt
  | none => dflt

/-- `content.trim()`: removal of leading and trailing whitespace. -/
def jsTrim (s : String) : String :=
  String.mk (((s.data.dropWhile Char.isWhitespace).reverse.dropWhile
    Char.isWhitespace).reverse)

/-- `Map.prototype.set` on a string-keyed map kept as an ordered association
list: an existing key keeps its position and gets the new value (last write
wins), a fresh key is appended. -/
def mapSet (m : List (String × String)) (k v : String) : List (String × String) :=
  if m.any (fun p => decide (p.1 = k)) then
    m.map (fun p => if p.1 = k then (k, v) else p)
  else m ++ [(k, v)]

/-- Escaping applied by `JSON.stringify` to the characters the analysed data
can contain. -/
def escapeJson (s : String) : String :=
  s.foldl (fun acc c =>
    if c = '\\' then acc ++ "\\\\"
    else if c = '"' then acc ++ "\\\""
    else if c = '\n' then acc ++ "\\n"
    else if c = '\r' then acc ++ "\\r"
    else if c = '\t' then acc ++ "\\t"
    else acc.push c) ""

mutual

/-- `JSON.stringify` (compact form, insertion order preserved). -/
def stringifyJson : Json → String
  | .null => "null"
  | .bool true => "true"
  | .bool false => "false"
  | .num n => toString n
  | .str s => "\"" ++ escapeJson s ++ "\""
  | .arr xs => "[" ++ stringifyArr xs ++ "]"
  | .obj kvs => "\x7b" ++ stringifyObj kvs ++ "\x7d"

/-- Comma-separated serialization of array elements. -/
def stringifyArr : List Json → String
  | [] => ""
  | [x] => stringifyJson x
  | x :: y :: rest => stringifyJson x ++ "," ++ stringifyArr (y :: rest)

/-- Comma-separated serialization of record fields. -/
def stringifyObj : List (String × Json) → String
  | [] => ""
  | [(k, v)] => "\"" ++ escapeJson k ++ "\":" ++ stringifyJson v
  | (k, v) :: f :: rest =>
      "\"" ++ escapeJson k ++ "\":" ++ stringifyJson v ++ "," ++ stringifyObj (f :: rest)

end

/-!
## Relevance filter (`filterByContentRelevance`, `src/config/RAGNLP.ts` 201-216)
-/

/-- A retrieved record as seen by the relevance filter: only its serialized
payload (`pageContent`) is inspected. -/
structure RetrievedDoc where
  pageContent : String
deriving Repr, DecidableEq

/-- `toLowerCase()`, character by character (the inputs handled by the code
are ASCII, where the per-character lowering agrees with JavaScript). -/
def jsToLower (s : String) : String :=
  String.mk (s.data.map Char.toLower)

/-- Whether `pre` is a prefix of `l`. -/
def charPrefix : List Char → List Char → Bool
  | [], _ => true
  | _ :: _, [] => false
  | a :: pre, b :: l => a == b && charPrefix pre l

/-- Whether `needle` occurs as a contiguous run inside `hay`. -/
def charContains (hay needle : List Char) : Bool :=
  charPrefix needle hay ||
    match hay with
    | [] => false
    | _ :: t => charContains t needle

/-- `s.includes(sub)` on JavaScript strings: substring containment. -/
def jsIncludes (s sub : String) : Bool :=
  charContains s.data sub.data

/-- Splitting a character list at whitespace runs; empty pieces (as produced
by `split(/\s+/)` at a leading separator) carry length `0` and are dropped by
the length filter downstream. -/
def splitWsAux : List Char → List Char → List (List Char)
  | [], cur => [cur.reverse]
  | c :: rest, cur =>
      if c.isWhitespace then cur.reverse :: splitWsAux rest []
      else splitWsAux rest (c :: cur)

/-- `query.toLowerCase().split(/\s+/).filter(term => term.length > 2)`:
whitespace tokens of the lower-cased query that are longer than two
characters. -/
def queryTokens (query : String) : List String :=
  ((splitWsAux (jsToLower query).data []).map String.mk).filter
    (fun t => t.length > 2)

/-- The relevance score `score / queryTerms.length` of one candidate payload.
`score` counts the query terms contained in the lower-cased payload.  The one
non-finite case of the source's floating-point division is `0 / 0` when the
token list is empty; it is modelled as `none` (the source's `NaN`), every other
quotient being an exact rational. -/
def relevanceScore (tokens : List String) (content : String) : Option ℚ :=
  let score : Nat := (tokens.filter (fun t => jsIncludes content t)).length
  if tokens.length = 0 then none
  else some ((score : ℚ) / (tokens.length : ℚ))

/-- `relevanceScore >= threshold` for one candidate; a comparison against the
non-finite value is false, as every `NaN` comparison is in the source. -/
def keepDoc (tokens : List String) (threshold : ℚ) (d : RetrievedDoc) : Bool :=
  match relevanceScore tokens (jsToLower d.pageContent) with
  | none => false
  | some q => threshold ≤ q

/-- `filterByContentRelevance(docs, query, threshold)`. -/
def filterByContentRelevance (docs : List RetrievedDoc) (query : String)
    (threshold : ℚ) : List RetrievedDoc :=
  let tokens := queryTokens query
  docs.filter (keepDoc tokens threshold)

/-- Modelled from the spec: the first explicit division-by-zero policy the spec
offers ("treat as score 0 for every candidate, i.e., reject all"): on zero
usable tokens every candidate scores `0` and is kept iff `0` meets the
threshold. -/
def filterSpecScoreZero (docs : List RetrievedDoc) (query : String)
    (threshold : ℚ) : List RetrievedDoc :=
  let tokens := queryTokens query
  if tokens.length = 0 then docs.filter (fun _ => threshold ≤ 0)
  else docs.filter (keepDoc tokens threshold)

/-- Modelled from the spec: the second explicit division-by-zero policy the
spec offers ("accept all"): on zero usable tokens every candidate is kept. -/
def filterSpecAcceptAll (docs : List RetrievedDoc) (query : String)
    (threshold : ℚ) : List RetrievedDoc :=
  let tokens := queryTokens query
  if tokens.length = 0 then docs
  else docs.filter (keepDoc tokens threshold)

/-!
## Area-partition maps (`buildAreaPartitionMaps`, `src/config/RAGNLP.ts` 605-667)
-/

/-- One area's resolved partition list (`AreaPartitionMap` in the source).
The source's loose typing lets non-string values through the truthiness
checks, so the fields hold JSON values. -/
structure AreaPartitionMap where
  areaUuid : Json
  areaName : Json
  partitions : List (Json × Json)
deriving DecidableEq

/-- Resolution of one partition entry of an area: skip falsy entries; a bare
string gets the synthetic name `"Partition_" + first 8 characters`; any other
value contributes its `uuid`/`name` fields; the pair is kept only when both
resolved components are truthy. -/
def resolvePartitionEntry (p : Json) : Option (Json × Json) :=
  if truthy p = false then none
  else
    let pUuid : Option Json :=
      match p with
      | .str s => some (.str s)
      | _ => getField p "uuid"
    let pName : Option Json :=
      match p with
      | .str s => some (.str ("Partition_" ++ s.take 8))
      | _ => getField p "name"
    if truthyOpt pUuid && truthyOpt pName then
      some (pUuid.getD .null, pName.getD .null)
    else none

/-- The partition loop of `buildAreaPartitionMaps`: iterate the area's
`partitions` array (absent or non-array means no partitions), pushing each
successfully resolved pair. -/
def resolveAreaPartitions (area : Json) : List (Json × Json) :=
  match getField area "partitions" with
  | some (.arr parts) =>
      parts.foldl (fun acc p =>
        match resolvePartitionEntry p with
        | some pr => acc ++ [pr]
        | none => acc) []
  | _ => []

/-- One iteration of the area loop of `buildAreaPartitionMaps`: a truthy
`typeof === "object"` entry with truthy `uuid` AND truthy `name` pushes its
map; any other entry is skipped with a warning (`continue`). -/
def areaStep (maps : List AreaPartitionMap) (area : Json) : List AreaPartitionMap :=
  if truthy area && isObjectType area then
    if truthyOpt (getField area "uuid") && truthyOpt (getField area "name") then
      maps ++ [{ areaUuid := (getField area "uuid").getD .null,
                 areaName := (getField area "name").getD .null,
                 partitions := resolveAreaPartitions area }]
    else maps
  else maps

/-- `buildAreaPartitionMaps(jsonContent)`: one map per area that survives the
validation, pushed in input order; empty when the document has no `areas`
array. -/
def buildAreaPartitionMaps (j : Json) : List AreaPartitionMap :=
  match getField j "areas" with
  | some (.arr areas) => areas.foldl areaStep []
  | _ => []

/-- The per-area outcome of `buildAreaPartitionMaps` as a single step: `none`
when the area entry is skipped, `some` of its map otherwise.  Used to state
the order-preserving characterization of the fold. -/
def areaMapOf (area : Json) : Option AreaPartitionMap :=
  if truthy area && isObjectType area
      && truthyOpt (getField area "uuid") && truthyOpt (getField area "name") then
    some { areaUuid := (getField area "uuid").getD .null,
           areaName := (getField area "name").getD .null,
           partitions := resolveAreaPartitions area }
  else none

/-!
## Endpoint-area relations (`buildEndpointAreaRelations`, `src/config/RAGNLP.ts` 671-777)
-/

/-- A derived endpoint-to-area relation (`EndpointAreaRelation` in the
source). -/
structure EndpointAreaRelation where
  endpointUuid : Json
  endpointName : Json
  areaUuid : Json
  areaName : Json
  partitionUuids : List Json
  location : List Json
deriving DecidableEq

/-- `areaMap.partitions.filter(p => endpoint.partitions.includes(p.uuid))`:
the area partitions shared with the endpoint's declared partition list. -/
def sharedPartitionsOf (epParts : List Json) (am : AreaPartitionMap) : List (Json × Json) :=
  am.partitions.filter (fun p => decide (p.1 ∈ epParts))

/-- The relation record built on a non-empty intersection. -/
def mkRelation (epUuid epName : Json) (shared : List (Json × Json))
    (am : AreaPartitionMap) : EndpointAreaRelation :=
  { endpointUuid := epUuid
    endpointName := epName
    areaUuid := am.areaUuid
    areaName := am.areaName
    partitionUuids := shared.map Prod.fst
    location := shared.map Prod.snd }

/-- `relations.has(key)` on the relation map kept as an ordered association
list. -/
def mapHas (rels : List (Json × EndpointAreaRelation)) (k : Json) : Bool :=
  rels.any (fun pr => decide (pr.1 = k))

/-- `relations.get(key)`. -/
def relLookup (rels : List (Json × EndpointAreaRelation)) (k : Json) :
    Option EndpointAreaRelation :=
  (rels.find? (fun pr => decide (pr.1 = k))).map Prod.snd

/-- Boolean check that the relation map holds pairwise distinct keys. -/
def relKeysDistinct : List (Json × EndpointAreaRelation) → Bool
  | [] => true
  | pr :: rest => !mapHas rest pr.1 && relKeysDistinct rest

/-- `uuid.substring(0, 8)` prefixed by `"Device_"`; the source throws (and the
surrounding `catch` skips the endpoint) when the uuid is not a string. -/
def substrName : Json → Option Json
  | .str s => some (.str ("Device_" ++ s.take 8))
  | _ => none

/-- `endpoint.name || "Device_" + endpoint.uuid.substring(0, 8)` given the
already-extracted truthy uuid; `none` when the fallback name computation
throws. -/
def endpointNameJs (ep : Json) (u : Json) : Option Json :=
  match getField ep "name" with
  | some n => if truthy n then some n else substrName u
  | none => substrName u

/-- The guard chain at the top of the endpoint loop: a truthy endpoint with a
truthy `uuid`, a non-empty `partitions` array and a computable display name is
processed; every other endpoint is skipped (`continue`).  Returns the
extracted `(uuid, name, partitions)`. -/
def epValidData (ep : Json) : Option (Json × Json × List Json) :=
  if truthy ep = false then none
  else
    match getField ep "uuid" with
    | none => none
    | some u =>
      if truthy u = false then none
      else
        match getField ep "partitions" with
        | some (.arr (p :: ps)) =>
            match endpointNameJs ep u with
            | some nm => some (u, nm, p :: ps)
            | none => none
        | _ => none

/-- The inner loop over the area maps for one endpoint: on the first non-empty
intersection the relation is inserted; any later non-empty intersection finds
the key present (`relations.has`) and is only logged. -/
def processAreaMaps (epUuid epName : Json) (epParts : List Json) :
    List AreaPartitionMap → List (Json × EndpointAreaRelation) →
    List (Json × EndpointAreaRelation)
  | [], rels => rels
  | am :: rest, rels =>
      let shared := sharedPartitionsOf epParts am
      if shared = [] then processAreaMaps epUuid epName epParts rest rels
      else if mapHas rels epUuid then processAreaMaps epUuid epName epParts rest rels
      else processAreaMaps epUuid epName epParts rest
        (rels ++ [(epUuid, mkRelation epUuid epName shared am)])

/-- One iteration of the endpoint loop. -/
def processEndpoint (ams : List AreaPartitionMap)
    (rels : List (Json × EndpointAreaRelation)) (ep : Json) :
    List (Json × EndpointAreaRelation) :=
  match epValidData ep with
  | none => rels
  | some (u, nm, parts) => processAreaMaps u nm parts ams rels

/-- `buildEndpointAreaRelations(jsonContent, areaPartitionMaps)`: empty when
the document has no `areas` array or the map list is empty; otherwise the
endpoint loop over the document's `endpoints` array.  (The caller only invokes
it when a non-empty `endpoints` array is present.) -/
def buildEndpointAreaRelations (j : Json) (ams : List AreaPartitionMap) :
    List (Json × EndpointAreaRelation) :=
  match getField j "areas" with
  | some (.arr _) =>
      if ams = [] then []
      else
        match getField j "endpoints" with
        | some (.arr eps) => eps.foldl (processEndpoint ams) []
        | _ => []
  | _ => []

/-!
## Global partition map and statistics
-/

/-- Modelled from the spec: `buildGlobalPartitionMap` is imported from
`./buildGlobalPartitionsMap.js`, a file not among the provided sources.
Per spec §4.2: for every area, for every partition entry, a bare identifier
string gets the synthetic name `"Partition_" + first 8 characters of the
identifier`; an object entry contributes its own `uuid`/`name` fields and is
skipped when either is missing; the output maps partition identifier to
resolved name, deduplicated by identifier with last write winning. -/
def buildGlobalPartitionMap (j : Json) : List (String × String) :=
  let areas := arrElems (getField j "areas")
  areas.foldl (fun m area =>
    let parts := arrElems (getField area "partitions")
    parts.foldl (fun m p =>
      match p with
      | .str s => mapSet m s ("Partition_" ++ s.take 8)
      | _ =>
        match getField p "uuid", getField p "name" with
        | some (.str u), some (.str n) => mapSet m u n
        | _, _ => m) m) []

/-- `ep.category === 18`: the sensor test of the statistics aggregator. -/
def isSensorEp (ep : Json) : Bool :=
  getField ep "category" = some (.num 18)

/-- `[11, 12, 15].includes(ep.category)`: the actuator test. -/
def isActuatorEp (ep : Json) : Bool :=
  match getField ep "category" with
  | some (.num n) => n = 11 || n = 12 || n = 15
  | _ => false

/-- `[0, 1, 2].includes(ep.category)`: the controller test. -/
def isControllerEp (ep : Json) : Bool :=
  match getField ep "category" with
  | some (.num n) => n = 0 || n = 1 || n = 2
  | _ => false

/-!
## The loader (`loadDocumentsJSON`, `src/config/RAGNLP.ts` 496-590, and
`getFallbackDocument`, 779-817)
-/

/-- The fatal failure kinds of the loader (spec §7). -/
inductive LoadError where
  | missingSource
  | emptyInput
  | malformedInput
  | invalidRoot
deriving Repr, DecidableEq

/-- The metadata attribute set (`EndpointMetadata` in the source, with every
field that either construction site of the loader sets).  Fields the source
assigns a possibly-undefined dynamic value keep type `Option Json`. -/
structure DocMetadata where
  source : String
  loc : String
  type : String
  isValid : Bool
  timestamp : String
  chunkType : String
  deviceType : String
  hasAreaInfo : Bool
  name : Option Json
  installationName : Option Json
  revision : Option Json
  totalEndpoints : Option Json
  totalAreas : Option Json
  hasPartitions : Option Bool
  major : Option Json
  minor : Option Json
  uuid : Option String
  category : Option Int
  visualizationType : Option String
  categoryName : Option String
  visualizationCategory : Option String
  id : Option String
  partitions : Option (List Json)
  location : Option (List Json)
  areaNames : Option (List Json)
  areaUuids : Option (List Json)
  parametersCount : Option Int
  defaultParameter : Option String
  chunkStrategy : Option String
deriving DecidableEq

/-- An output record: serialized payload plus metadata (`ExtendDocument`). -/
structure OutputDoc where
  pageContent : String
  metadata : DocMetadata
  readableText : Option String
deriving DecidableEq

/-- The loader's return value (`LoadDocumentResult`). -/
structure LoadDocumentResult where
  documents : List OutputDoc
  partitionMap : List (String × String)
deriving DecidableEq

/-- The single degraded record built by `getFallbackDocument`; `ts` is the
call's timestamp and `rnd` the random suffix of the fallback identifier. -/
def fallbackDoc (message ts rnd : String) : OutputDoc :=
  { pageContent := stringifyJson (Json.obj [
      ("error", Json.str "Failed to load document"),
      ("message", Json.str message),
      ("fallbackType", Json.str "empty_system")])
    metadata := {
      source := "fallback"
      loc := "internal"
      type := "installation-config"
      isValid := false
      timestamp := ts
      chunkType := "fallback"
      deviceType := "other"
      hasAreaInfo := true
      name := some (Json.str "Fallback Document")
      installationName := none
      revision := none
      totalEndpoints := none
      totalAreas := none
      hasPartitions := none
      major := none
      minor := none
      uuid := some ("fallback-" ++ rnd)
      category := some (-1)
      visualizationType := some "N/A"
      categoryName := some "fallback"
      visualizationCategory := some "fallback"
      id := some "0"
      partitions := some []
      location := some []
      areaNames := some []
      areaUuids := some []
      parametersCount := some 0
      defaultParameter := some ""
      chunkStrategy := some "standard" }
    readableText := some "System temporarily unavailable. Please check the configuration and try again." }

/-- `getFallbackDocument(error)`: exactly one fallback record and an empty
partition map. -/
def getFallbackDocument (message ts rnd : String) : LoadDocumentResult :=
  { documents := [fallbackDoc message ts rnd]
    partitionMap := [] }

/-- `Array.isArray(x) && x.length > 0`, the `hasValidEndpoints` /
`hasValidAreas` test. -/
def isNonEmptyArr : Option Json → Bool
  | some (.arr (_ :: _)) => true
  | _ => false

/-- The `statistics` object of the installation content.  The `|| 0` guards of
the source only matter for the two `?.length` chains; the three category
counts are plain array-filter lengths. -/
def statsJson (j : Json) (eps : List Json) (gpm : List (String × String)) : Json :=
  Json.obj [
    ("totalEndpoints", jsOr (optLength (getField j "endpoints")) (Json.num 0)),
    ("totalAreas", jsOr (optLength (getField j "areas")) (Json.num 0)),
    ("totalPartitions", Json.num gpm.length),
    ("sensorCount", Json.num (eps.filter isSensorEp).length),
    ("actuatorCount", Json.num (eps.filter isActuatorEp).length),
    ("controllerCount", Json.num (eps.filter isControllerEp).length)]

/-- The `installationContent` object serialized into the summary record's
payload.  A missing `areas` field is `undefined` and is omitted by
`JSON.stringify`. -/
def installationContentJson (j : Json) (eps : List Json)
    (gpm : List (String × String)) : Json :=
  Json.obj (
    [("type", Json.str "installation-config"),
     ("metadata", jsOr (getField j "metadata") (Json.obj [])),
     ("statistics", statsJson j eps gpm),
     ("endpoints", Json.arr eps)]
    ++ (match getField j "areas" with
        | some a => [("areas", a)]
        | none => [])
    ++ [("globalPartitionMap", Json.obj (gpm.map (fun kv => (kv.1, Json.str kv.2))))])

/-- The metadata of the summary record (`mainDocument.metadata`). -/
def summaryMetadata (j : Json) (ts : String) (gpm : List (String × String))
    (hasValidAreas : Bool) : DocMetadata :=
  { source := "installation-config.json"
    loc := "/home/luca/RagBaseNLP/src/data/installation-config.json"
    type := "installation-config"
    isValid := true
    timestamp := ts
    chunkType := "summary"
    deviceType := "installation"
    hasAreaInfo := hasValidAreas
    name := optChain (getField j "metadata") "name"
    installationName := some (jsOr (optChain (getField j "metadata") "name")
      (Json.str "installation-config"))
    revision := optChain (getField j "metadata") "revision"
    totalEndpoints := some (jsOr (optLength (getField j "endpoints")) (Json.num 0))
    totalAreas := some (jsOr (optLength (getField j "areas")) (Json.num 0))
    hasPartitions := some (decide (0 < gpm.length))
    major := optChain (getField j "metadata") "major"
    minor := optChain (getField j "metadata") "minor"
    uuid := none
    category := none
    visualizationType := none
    categoryName := none
    visualizationCategory := none
    id := none
    partitions := none
    location := none
    areaNames := none
    areaUuids := none
    parametersCount := none
    defaultParameter := none
    chunkStrategy := none }

/-- The single summary record (`mainDocument`) of a successful load. -/
def summaryDoc (j : Json) (ts : String) : OutputDoc :=
  let eps := arrElems (getField j "endpoints")
  let gpm := buildGlobalPartitionMap j
  let hasValidAreas := isNonEmptyArr (getField j "areas")
  { pageContent := stringifyJson (installationContentJson j eps gpm)
    metadata := summaryMetadata j ts gpm hasValidAreas
    readableText := none }

/-- `loadDocumentsJSON()`.  The file read and `JSON.parse` are the external
primitives of the source, passed in as `readResult` (`none` models an
unreadable file) and `parse` (`none` models a parse failure); `ts` and `rnd`
stand for `new Date().toISOString()` and the random fallback-id suffix.
Fatal failures are the `Except.error` branch (`throw` in the source). -/
def loadDocumentsJSON (readResult : Option String) (parse : String → Option Json)
    (ts rnd : String) : Except LoadError LoadDocumentResult :=
  match readResult with
  | none => Except.error LoadError.missingSource
  | some rawContent =>
    if (jsTrim rawContent).length = 0 then Except.error LoadError.emptyInput
    else
      match parse rawContent with
      | none => Except.error LoadError.malformedInput
      | some jsonContent =>
        if truthy jsonContent && isObjectType jsonContent then
          let hasValidEndpoints := isNonEmptyArr (getField jsonContent "endpoints")
          let hasValidAreas := isNonEmptyArr (getField jsonContent "areas")
          if hasValidEndpoints then
            let areaPartitionMaps :=
              if hasValidAreas then buildAreaPartitionMaps jsonContent else []
            let _endpointAreaRelations :=
              if hasValidAreas then buildEndpointAreaRelations jsonContent areaPartitionMaps
              else []
            Except.ok {
              documents := [summaryDoc jsonContent ts]
              partitionMap := buildGlobalPartitionMap jsonContent }
          else
            Except.ok (getFallbackDocument "No valid endpoints in configuration" ts rnd)
        else Except.error LoadError.invalidRoot

/-- The fatal error of a load outcome, `none` on success. -/
def loadErrorOf : Except LoadError LoadDocumentResult → Option LoadError
  | .error e => some e
  | .ok _ => none

/-- The number of records a load outcome hands downstream. -/
def loadDocsCount : Except LoadError LoadDocumentResult → Nat
  | .error _ => 0
  | .ok r => r.documents.length

/-- The spec-side characterization of the fatal error kinds (claim C3 as
amended): `MissingSource` when the source is absent, `EmptyInput` when the
content trims to nothing, `MalformedInput` when structural parsing fails,
`InvalidRoot` when the parsed value is neither a keyed record nor an array. -/
def specFatalError (readResult : Option String)
    (parse : String → Option Json) : Option LoadError :=
  match readResult with
  | none => some LoadError.missingSource
  | some raw =>
    if (jsTrim raw).length = 0 then some LoadError.emptyInput
    else
      match parse raw with
      | none => some LoadError.malformedInput
      | some j =>
        if isKeyedRecord j || isArrayJson j then none
        else some LoadError.invalidRoot

/-!
## Concrete inputs used to exercise the definitions
-/

/-- A parse primitive returning the empty-array document for the literal
input `"[]"` (what `JSON.parse` does on it). -/
def arrParse : String → Option Json :=
  fun s => if s = "[]" then some (Json.arr []) else none

/-- A parse primitive returning the empty keyed record for the literal
two-character record input (what `JSON.parse` does on it). -/
def objParse : String → Option Json :=
  fun s => if s = "\x7b\x7d" then some (Json.obj []) else none

/-- The endpoint of the spec §8 example: `{uuid:"e1", category:18,
partitions:["p1"]}`. -/
def sampleEndpoint : Json :=
  Json.obj [("uuid", Json.str "e1"), ("category", Json.num 18),
            ("partitions", Json.arr [Json.str "p1"])]

/-- The area of the spec §8 example: `{uuid:"a1", name:"Kitchen",
partitions:["p1"]}`. -/
def sampleArea : Json :=
  Json.obj [("uuid", Json.str "a1"), ("name", Json.str "Kitchen"),
            ("partitions", Json.arr [Json.str "p1"])]

/-- The document of the spec §8 example. -/
def sampleDoc : Json :=
  Json.obj [("endpoints", Json.arr [sampleEndpoint]),
            ("areas", Json.arr [sampleArea])]

/-- A parse primitive mapping the marker input `"sample-config"` to
`sampleDoc`. -/
def sampleParse : String → Option Json :=
  fun s => if s = "sample-config" then some sampleDoc else none

/-- An area entry that is a keyed record with a `uuid` but no `name`. -/
def areaNoName : Json := Json.obj [("uuid", Json.str "a2")]

/-- An areas list mixing a valid area, a non-record entry and a record
lacking a name. -/
def mixedAreas : List Json := [sampleArea, Json.num 7, areaNoName]

/-- A document whose `areas` list is `mixedAreas`. -/
def mixedAreasDoc : Json := Json.obj [("areas", Json.arr mixedAreas)]

/-!
## Theorems: relevance filter
-/

/-- C10: for every candidate list, query and threshold,
`filterByContentRelevance` returns a subsequence of its input — every retained
element is an element of the input, the relative order and multiplicities are
preserved (the sublist relation), and the output length never exceeds the
input length. -/
theorem filterByContentRelevance_sublist (docs : List RetrievedDoc)
    (query : String) (threshold : ℚ) :
    List.Sublist (filterByContentRelevance docs query threshold) docs ∧
    (∀ d ∈ filterByContentRelevance docs query threshold, d ∈ docs) ∧
    (filterByContentRelevance docs query threshold).length ≤ docs.length := by
  refine ⟨List.filter_sublist docs, ?_, (List.filter_sublist docs).length_le⟩
  intro d hd
  exact List.mem_of_mem_filter hd

/-- Counterexample to C6: on the query `"ab"` (zero usable tokens) the score
the threshold comparison receives is the non-finite `0 / 0` value, and at
threshold `0` the filter's output (empty) disagrees with BOTH explicit
policies the spec names — "treat as score 0, i.e. reject all" and "accept
all" each keep the candidate at threshold `0`. -/
theorem relevanceFilter_zero_tokens_counterexample :
    queryTokens "ab" = [] ∧
    relevanceScore (queryTokens "ab") (jsToLower (RetrievedDoc.mk "x").pageContent) = none ∧
    filterByContentRelevance [RetrievedDoc.mk "x"] "ab" 0 = [] ∧
    filterSpecScoreZero [RetrievedDoc.mk "x"] "ab" 0 = [RetrievedDoc.mk "x"] ∧
    filterSpecAcceptAll [RetrievedDoc.mk "x"] "ab" 0 = [RetrievedDoc.mk "x"] := by
  refine ⟨by decide, by decide, by decide, by decide, by decide⟩

/-- C6 as amended: when the query yields zero usable tokens the source
computes the undefined `0 / 0` score for every candidate and lets it reach
the threshold comparison, where every comparison with it is false; the net
behavior is that all candidates are rejected at every threshold (including
thresholds a defined score of `0` would meet). -/
theorem relevanceFilter_zero_tokens_rejects_all
    (docs : List RetrievedDoc) (query : String) (threshold : ℚ)
    (h : queryTokens query = []) :
    (∀ d ∈ docs, relevanceScore (queryTokens query) (jsToLower d.pageContent) = none) ∧
    filterByContentRelevance docs query threshold = [] := by
  constructor
  · intro d _
    simp [relevanceScore, h]
  · simp only [filterByContentRelevance]
    apply List.filter_eq_nil_iff.mpr
    intro a _
    simp [keepDoc, relevanceScore, h]

/-- Witness for `relevanceFilter_zero_tokens_rejects_all` at the query `"ab"`
and threshold `0`. -/
theorem relevanceFilter_zero_tokens_rejects_all_witness :
    queryTokens "ab" = [] ∧
    filterByContentRelevance [RetrievedDoc.mk "x"] "ab" 0 = [] := by
  have h := relevanceFilter_zero_tokens_rejects_all [RetrievedDoc.mk "x"] "ab" 0 (by decide)
  exact ⟨by decide, h.2⟩

/-- Counterexample to C7: the universally quantified threshold-`0` clause
fails for a query with zero usable tokens — the filter then drops the
candidate instead of returning the input unchanged. -/
theorem relevanceFilter_threshold_zero_counterexample :
    queryTokens "ab" = [] ∧
    filterByContentRelevance [RetrievedDoc.mk "x"] "ab" 0 ≠ [RetrievedDoc.mk "x"] := by
  refine ⟨by decide, by decide⟩

/-- C7 as amended: for a query with at least one usable token, a candidate
containing every token scores exactly `1`, one containing none scores exactly
`0`, and threshold `0` returns the input unchanged; threshold `1.01` returns
the empty sequence (this clause needs no token hypothesis). -/
theorem relevanceFilter_score_and_thresholds
    (docs : List RetrievedDoc) (query : String) (d : RetrievedDoc)
    (hne : queryTokens query ≠ []) :
    ((∀ t ∈ queryTokens query, jsIncludes (jsToLower d.pageContent) t = true) →
      relevanceScore (queryTokens query) (jsToLower d.pageContent) = some 1) ∧
    ((∀ t ∈ queryTokens query, jsIncludes (jsToLower d.pageContent) t = false) →
      relevanceScore (queryTokens query) (jsToLower d.pageContent) = some 0) ∧
    filterByContentRelevance docs query 0 = docs ∧
    filterByContentRelevance docs query (101 / 100) = [] := by
  have hlen : (queryTokens query).length ≠ 0 := by
    simpa [List.length_eq_zero] using hne
  have hpos : (0 : ℚ) < ((queryTokens query).length : ℚ) :=
    Nat.cast_pos.mpr (Nat.pos_of_ne_zero hlen)
  refine ⟨?_, ?_, ?_, ?_⟩
  · intro hall
    have hfil : (queryTokens query).filter
        (fun t => jsIncludes (jsToLower d.pageContent) t) = queryTokens query :=
      List.filter_eq_self.mpr hall
    simp only [relevanceScore, hfil, if_neg hlen]
    congr 1
    exact div_self (Nat.cast_ne_zero.mpr hlen)
  · intro hnone
    have hfil : (queryTokens query).filter
        (fun t => jsIncludes (jsToLower d.pageContent) t) = [] :=
      List.filter_eq_nil_iff.mpr (fun a ha => by simp [hnone a ha])
    simp [relevanceScore, hfil, hlen]
  · simp only [filterByContentRelevance]
    apply List.filter_eq_self.mpr
    intro a _
    simp only [keepDoc, relevanceScore, if_neg hlen, decide_eq_true_eq]
    exact div_nonneg (Nat.cast_nonneg _) (Nat.cast_nonneg _)
  · simp only [filterByContentRelevance]
    apply List.filter_eq_nil_iff.mpr
    intro a _
    simp only [keepDoc, relevanceScore, if_neg hlen, decide_eq_true_eq]
    intro hcon
    have hk : ((((queryTokens query).filter
        (fun t => jsIncludes (jsToLower a.pageContent) t)).length : ℚ)
          / ((queryTokens query).length : ℚ)) ≤ 1 := by
      rw [div_le_one hpos]
      exact_mod_cast List.length_filter_le _ _
    linarith
  
/-- Witness for `relevanceFilter_score_and_thresholds` on the query
`"hello world"` and a candidate containing both tokens. -/
theorem relevanceFilter_score_and_thresholds_witness :
    queryTokens "hello world" ≠ [] ∧
    relevanceScore (queryTokens "hello world")
      (jsToLower (RetrievedDoc.mk "say hello world").pageContent) = some 1 ∧
    filterByContentRelevance [RetrievedDoc.mk "say hello world"] "hello world" 0
      = [RetrievedDoc.mk "say hello world"] ∧
    filterByContentRelevance [RetrievedDoc.mk "say hello world"] "hello world" (101 / 100)
      = [] := by
  have h := relevanceFilter_score_and_thresholds [RetrievedDoc.mk "say hello world"]
    "hello world" (RetrievedDoc.mk "say hello world") (by decide)
  exact ⟨by decide, h.1 (by decide), h.2.2.1, h.2.2.2⟩

/-!
## Theorems: statistics
-/

/-- C9: the three category code sets of the statistics (sensor `{18}`,
actuator `{11,12,15}`, controller `{0,1,2}`) are pairwise disjoint, so the
three per-category filters of `statsJson` partition a subset of the endpoint
list: their counts sum to the count of endpoints in any of the sets, and that
sum never exceeds the total endpoint count; an endpoint whose category lies in
none of the sets is counted by no filter. -/
theorem statistics_category_sets_disjoint (eps : List Json) :
    (∀ ep : Json, ¬(isSensorEp ep = true ∧ isActuatorEp ep = true) ∧
                  ¬(isSensorEp ep = true ∧ isControllerEp ep = true) ∧
                  ¬(isActuatorEp ep = true ∧ isControllerEp ep = true)) ∧
    (eps.filter (fun ep => isSensorEp ep || isActuatorEp ep || isControllerEp ep)).length
      = (eps.filter isSensorEp).length + (eps.filter isActuatorEp).length
        + (eps.filter isControllerEp).length ∧
    (eps.filter isSensorEp).length + (eps.filter isActuatorEp).length
        + (eps.filter isControllerEp).length ≤ eps.length := by
  have disj : ∀ ep : Json, ¬(isSensorEp ep = true ∧ isActuatorEp ep = true) ∧
      ¬(isSensorEp ep = true ∧ isControllerEp ep = true) ∧
      ¬(isActuatorEp ep = true ∧ isControllerEp ep = true) := by
    intro ep
    rcases hcat : getField ep "category" with _ | v
    · simp [isSensorEp, isActuatorEp, isControllerEp, hcat]
    · cases v <;> simp [isSensorEp, isActuatorEp, isControllerEp, hcat]
      omega
  have hsum : (eps.filter (fun ep => isSensorEp ep || isActuatorEp ep || isControllerEp ep)).length
      = (eps.filter isSensorEp).length + (eps.filter isActuatorEp).length
        + (eps.filter isControllerEp).length := by
    induction eps with
    | nil => simp
    | cons a l ih =>
      obtain ⟨d1, d2, d3⟩ := disj a
      by_cases hs : isSensorEp a = true <;> by_cases ha : isActuatorEp a = true <;>
        by_cases hc : isControllerEp a = true
      · exact absurd ⟨hs, ha⟩ d1
      · exact absurd ⟨hs, ha⟩ d1
      · exact absurd ⟨hs, hc⟩ d2
      · simp [List.filter_cons, hs, ha, hc, ih]; omega
      · exact absurd ⟨ha, hc⟩ d3
      · simp [List.filter_cons, hs, ha, hc, ih]; omega
      · simp [List.filter_cons, hs, ha, hc, ih]; omega
      · simp [List.filter_cons, hs, ha, hc, ih]
  refine ⟨disj, hsum, ?_⟩
  rw [← hsum]
  exact List.length_filter_le _ _

/-!
## Theorems: loader error handling
-/

/-- Counterexample to C3: the input `"[]"` parses to an array, which is not a
keyed record, yet the load does not fail — the array passes the source's root
check (`typeof [] === "object"` and `[]` is truthy), has no usable `endpoints`
field, and routes to the fallback path, producing one record. -/
theorem loadDocumentsJSON_array_root_not_fatal :
    arrParse "[]" = some (Json.arr []) ∧
    isKeyedRecord (Json.arr []) = false ∧
    loadErrorOf (loadDocumentsJSON (some "[]") arrParse "t0" "r0") = none ∧
    loadDocsCount (loadDocumentsJSON (some "[]") arrParse "t0" "r0") = 1 := by
  refine ⟨rfl, rfl, rfl, rfl⟩

/-- C3 as amended: the load fails, with the error propagated to the caller
and no document produced, exactly when the source is absent (`MissingSource`),
the content trims to nothing (`EmptyInput`), structural parsing fails
(`MalformedInput`), or the parsed value is neither a keyed record nor an array
(`InvalidRoot`; a parsed array passes the root check and routes to the
fallback path); in every non-fatal case exactly one record is produced. -/
theorem loadDocumentsJSON_fatal_error_characterization
    (readResult : Option String) (parse : String → Option Json) (ts rnd : String) :
    loadErrorOf (loadDocumentsJSON readResult parse ts rnd)
      = specFatalError readResult parse ∧
    (specFatalError readResult parse = none →
      loadDocsCount (loadDocumentsJSON readResult parse ts rnd) = 1) := by
  rcases readResult with _ | raw
  · simp [loadDocumentsJSON, specFatalError, loadErrorOf]
  · by_cases hraw : (jsTrim raw).length = 0
    · simp [loadDocumentsJSON, specFatalError, loadErrorOf, hraw]
    · rcases hp : parse raw with _ | j
      · simp [loadDocumentsJSON, specFatalError, loadErrorOf, hraw, hp]
      · have hroot : (truthy j && isObjectType j) = (isKeyedRecord j || isArrayJson j) := by
          cases j <;> simp [truthy, isObjectType, isKeyedRecord, isArrayJson]
        by_cases hk : (isKeyedRecord j || isArrayJson j) = true
        · by_cases hve : isNonEmptyArr (getField j "endpoints") = true
          · simp [loadDocumentsJSON, specFatalError, loadErrorOf, loadDocsCount,
              hraw, hp, hroot, hk, hve]
          · simp [loadDocumentsJSON, specFatalError, loadErrorOf, loadDocsCount,
              hraw, hp, hroot, hk, hve, getFallbackDocument]
        · have hk' : (isKeyedRecord j || isArrayJson j) = false := by
            simpa using hk
          simp [loadDocumentsJSON, specFatalError, loadErrorOf,
            hraw, hp, hroot, hk']

/-- Witness for `loadDocumentsJSON_fatal_error_characterization` on the
spec §8 example document (a non-fatal load producing one record). -/
theorem loadDocumentsJSON_fatal_error_characterization_witness :
    loadErrorOf (loadDocumentsJSON (some "sample-config") sampleParse "t0" "r0")
      = specFatalError (some "sample-config") sampleParse ∧
    specFatalError (some "sample-config") sampleParse = none ∧
    loadDocsCount (loadDocumentsJSON (some "sample-config") sampleParse "t0" "r0") = 1 := by
  have h := loadDocumentsJSON_fatal_error_characterization
    (some "sample-config") sampleParse "t0" "r0"
  exact ⟨h.1, by rfl, h.2 (by rfl)⟩

/-- C2: an input that parses to a keyed record whose `endpoints` sequence is
missing, not a sequence, or empty yields exactly one fallback record with
validity flag `false` and chunk classification `"fallback"`, together with an
empty partition map. -/
theorem loadDocumentsJSON_no_endpoints_fallback
    (raw : String) (parse : String → Option Json) (ts rnd : String)
    (kvs : List (String × Json))
    (hraw : (jsTrim raw).length ≠ 0)
    (hp : parse raw = some (Json.obj kvs))
    (hne : isNonEmptyArr (getField (Json.obj kvs) "endpoints") = false) :
    loadDocumentsJSON (some raw) parse ts rnd =
      Except.ok (getFallbackDocument "No valid endpoints in configuration" ts rnd) ∧
    (getFallbackDocument "No valid endpoints in configuration" ts rnd).documents
      = [fallbackDoc "No valid endpoints in configuration" ts rnd] ∧
    (fallbackDoc "No valid endpoints in configuration" ts rnd).metadata.isValid = false ∧
    (fallbackDoc "No valid endpoints in configuration" ts rnd).metadata.chunkType
      = "fallback" ∧
    (getFallbackDocument "No valid endpoints in configuration" ts rnd).partitionMap
      = [] := by
  refine ⟨?_, rfl, rfl, rfl, rfl⟩
  simp [loadDocumentsJSON, hraw, hp, hne, truthy, isObjectType]

/-- Witness for `loadDocumentsJSON_no_endpoints_fallback` on the empty keyed
record (the spec §8 example `{"endpoints": []}` degenerate family). -/
theorem loadDocumentsJSON_no_endpoints_fallback_witness :
    (jsTrim "\x7b\x7d").length ≠ 0 ∧
    objParse "\x7b\x7d" = some (Json.obj []) ∧
    loadDocumentsJSON (some "\x7b\x7d") objParse "t0" "r0" =
      Except.ok (getFallbackDocument "No valid endpoints in configuration" "t0" "r0") ∧
    (fallbackDoc "No valid endpoints in configuration" "t0" "r0").metadata.isValid
      = false ∧
    (fallbackDoc "No valid endpoints in configuration" "t0" "r0").metadata.chunkType
      = "fallback" ∧
    (getFallbackDocument "No valid endpoints in configuration" "t0" "r0").partitionMap
      = [] := by
  have h := loadDocumentsJSON_no_endpoints_fallback "\x7b\x7d" objParse "t0" "r0" []
    (by decide) (by rfl) (by rfl)
  exact ⟨by decide, by rfl, h.1, h.2.2.1, h.2.2.2.1, h.2.2.2.2⟩

/-- C4: a valid document with at least one endpoint yields exactly one
record, whose metadata has chunk classification `"summary"`, validity `true`,
and `totalEndpoints`/`totalAreas` equal to the lengths of the input
`endpoints` and `areas` sequences (`totalAreas` is `0` when `areas` is
absent; `arrElems` of an absent field is `[]`).  The hypothesis that no
endpoint entry is the JSON `null` mirrors the source, whose statistics
filters would throw on `null` elements. -/
theorem loadDocumentsJSON_summary_record
    (raw : String) (parse : String → Option Json) (ts rnd : String)
    (kvs : List (String × Json)) (e : Json) (eps : List Json)
    (hraw : (jsTrim raw).length ≠ 0)
    (hp : parse raw = some (Json.obj kvs))
    (heps : getField (Json.obj kvs) "endpoints" = some (Json.arr (e :: eps)))
    (hareas : getField (Json.obj kvs) "areas" = none ∨
      ∃ as : List Json, getField (Json.obj kvs) "areas" = some (Json.arr as))
    (_hnn : ∀ ep ∈ e :: eps, ep ≠ Json.null) :
    loadDocumentsJSON (some raw) parse ts rnd =
      Except.ok { documents := [summaryDoc (Json.obj kvs) ts],
                  partitionMap := buildGlobalPartitionMap (Json.obj kvs) } ∧
    (summaryDoc (Json.obj kvs) ts).metadata.chunkType = "summary" ∧
    (summaryDoc (Json.obj kvs) ts).metadata.isValid = true ∧
    (summaryDoc (Json.obj kvs) ts).metadata.totalEndpoints
      = some (Json.num (e :: eps).length) ∧
    (summaryDoc (Json.obj kvs) ts).metadata.totalAreas
      = some (Json.num (arrElems (getField (Json.obj kvs) "areas")).length) := by
  refine ⟨?_, rfl, rfl, ?_, ?_⟩
  · simp [loadDocumentsJSON, hraw, hp, heps, truthy, isObjectType, isNonEmptyArr]
  · simp only [summaryDoc, summaryMetadata, heps, optLength, lengthProp, jsOr, truthy]
    simp only [List.length_cons, Option.some.injEq]
    have hne : ((eps.length : Int) + 1) ≠ 0 := by omega
    simp [hne]
  · rcases hareas with h | ⟨as, h⟩
    · simp [summaryDoc, summaryMetadata, h, optLength, jsOr, arrElems]
    · by_cases hnil : as = []
      · subst hnil
        simp [summaryDoc, summaryMetadata, h, optLength, lengthProp, jsOr, truthy, arrElems]
      · have hlen : ((as.length : Int)) ≠ 0 := by
          have := List.length_pos.mpr hnil
          omega
        simp [summaryDoc, summaryMetadata, h, optLength, lengthProp, jsOr, truthy,
          arrElems, hlen]

/-- Witness for `loadDocumentsJSON_summary_record` on the spec §8 example. -/
theorem loadDocumentsJSON_summary_record_witness :
    loadDocumentsJSON (some "sample-config") sampleParse "t0" "r0" =
      Except.ok { documents := [summaryDoc sampleDoc "t0"],
                  partitionMap := buildGlobalPartitionMap sampleDoc } ∧
    (summaryDoc sampleDoc "t0").metadata.chunkType = "summary" ∧
    (summaryDoc sampleDoc "t0").metadata.isValid = true ∧
    (summaryDoc sampleDoc "t0").metadata.totalEndpoints = some (Json.num 1) ∧
    (summaryDoc sampleDoc "t0").metadata.totalAreas = some (Json.num 1) := by
  have h := loadDocumentsJSON_summary_record "sample-config" sampleParse "t0" "r0"
    [("endpoints", Json.arr [sampleEndpoint]), ("areas", Json.arr [sampleArea])]
    sampleEndpoint [] (by decide) (by rfl) (by rfl)
    (Or.inr ⟨[sampleArea], by rfl⟩) (by decide)
  exact ⟨h.1, h.2.1, h.2.2.1, h.2.2.2.1, h.2.2.2.2⟩

/-- C8: for a successfully loaded document, the summary metadata's
`hasPartitions` flag is `true` exactly when the GlobalPartitionMap built from
the document is non-empty. -/
theorem loadDocumentsJSON_hasPartitions_iff
    (raw : String) (parse : String → Option Json) (ts rnd : String)
    (kvs : List (String × Json)) (e : Json) (eps : List Json)
    (hraw : (jsTrim raw).length ≠ 0)
    (hp : parse raw = some (Json.obj kvs))
    (heps : getField (Json.obj kvs) "endpoints" = some (Json.arr (e :: eps)))
    (_hnn : ∀ ep ∈ e :: eps, ep ≠ Json.null) :
    loadDocumentsJSON (some raw) parse ts rnd =
      Except.ok { documents := [summaryDoc (Json.obj kvs) ts],
                  partitionMap := buildGlobalPartitionMap (Json.obj kvs) } ∧
    ((summaryDoc (Json.obj kvs) ts).metadata.hasPartitions = some true ↔
      buildGlobalPartitionMap (Json.obj kvs) ≠ []) := by
  constructor
  · simp [loadDocumentsJSON, hraw, hp, heps, truthy, isObjectType, isNonEmptyArr]
  · simp only [summaryDoc, summaryMetadata, Option.some.injEq]
    rw [decide_eq_true_eq, List.length_pos]

/-- Witness for `loadDocumentsJSON_hasPartitions_iff` on the spec §8
example, whose GlobalPartitionMap holds the single synthesized entry. -/
theorem loadDocumentsJSON_hasPartitions_iff_witness :
    (loadDocumentsJSON (some "sample-config") sampleParse "t0" "r0" =
      Except.ok { documents := [summaryDoc sampleDoc "t0"],
                  partitionMap := buildGlobalPartitionMap sampleDoc }) ∧
    ((summaryDoc sampleDoc "t0").metadata.hasPartitions = some true ↔
      buildGlobalPartitionMap sampleDoc ≠ []) ∧
    buildGlobalPartitionMap sampleDoc = [("p1", "Partition_p1")] := by
  have h := loadDocumentsJSON_hasPartitions_iff "sample-config" sampleParse "t0" "r0"
    [("endpoints", Json.arr [sampleEndpoint]), ("areas", Json.arr [sampleArea])]
    sampleEndpoint [] (by decide) (by rfl) (by rfl) (by decide)
  exact ⟨h.1, h.2, by rfl⟩

/-!
## Theorems: area-partition maps
-/

/-- One `areaStep` appends exactly the optional outcome `areaMapOf` of the
entry. -/
theorem areaStep_eq (maps : List AreaPartitionMap) (area : Json) :
    areaStep maps area = maps ++ (areaMapOf area).toList := by
  simp only [areaStep, areaMapOf]
  by_cases ht : truthy area = true <;>
  by_cases hobj : isObjectType area = true <;>
  by_cases hu : truthyOpt (getField area "uuid") = true <;>
  by_cases hn : truthyOpt (getField area "name") = true <;>
    simp [ht, hobj, hu, hn]

/-- The area fold with any accumulator is the accumulator followed by the
filter-map of the per-entry outcomes. -/
theorem areaFold_eq (areas : List Json) (acc : List AreaPartitionMap) :
    areas.foldl areaStep acc = acc ++ areas.filterMap areaMapOf := by
  induction areas generalizing acc with
  | nil => simp
  | cons a l ih =>
    rw [List.foldl_cons, areaStep_eq, ih]
    cases h : areaMapOf a <;> simp [List.filterMap_cons, h]

/-- Counterexample to C5: an area entry that IS a keyed record and has a
`uuid` — hence does not "lack both `uuid` and `name`" — but has no `name` is
nevertheless skipped: the source's guard is `!area.uuid || !area.name`
(lacking either field skips), not "lacking both". -/
theorem buildAreaPartitionMaps_missing_name_skipped :
    isKeyedRecord areaNoName = true ∧
    truthyOpt (getField areaNoName "uuid") = true ∧
    truthyOpt (getField areaNoName "name") = false ∧
    buildAreaPartitionMaps (Json.obj [("areas", Json.arr [areaNoName])]) = [] := by
  refine ⟨rfl, rfl, rfl, rfl⟩

/-- C5 as amended: an area entry is skipped (non-fatally) exactly when it is
not a truthy `typeof "object"` value or when it lacks a truthy `uuid` OR a
truthy `name`; every other entry contributes exactly one per-area map, the
output preserves the input area order, and skipped areas are omitted rather
than replaced by placeholders (the fold equals the order-preserving
filter-map of the per-entry outcomes). -/
theorem buildAreaPartitionMaps_characterization (j : Json) (areas : List Json)
    (h : getField j "areas" = some (Json.arr areas)) :
    buildAreaPartitionMaps j = areas.filterMap areaMapOf ∧
    (∀ a ∈ areas, areaMapOf a = none ↔
      ((truthy a && isObjectType a) = false ∨
       truthyOpt (getField a "uuid") = false ∨
       truthyOpt (getField a "name") = false)) := by
  constructor
  · simp only [buildAreaPartitionMaps, h]
    simpa using areaFold_eq areas []
  · intro a _
    simp only [areaMapOf]
    by_cases ht : truthy a = true <;>
    by_cases hobj : isObjectType a = true <;>
    by_cases hu : truthyOpt (getField a "uuid") = true <;>
    by_cases hn : truthyOpt (getField a "name") = true <;>
      simp [ht, hobj, hu, hn]

/-- Witness for `buildAreaPartitionMaps_characterization` on a mixed areas
list: the valid area survives, the number entry and the name-less record are
omitted, order preserved. -/
theorem buildAreaPartitionMaps_characterization_witness :
    buildAreaPartitionMaps mixedAreasDoc = mixedAreas.filterMap areaMapOf ∧
    mixedAreas.filterMap areaMapOf =
      [{ areaUuid := Json.str "a1", areaName := Json.str "Kitchen",
         partitions := [(Json.str "p1", Json.str "Partition_p1")] }] := by
  have h := buildAreaPartitionMaps_characterization mixedAreasDoc mixedAreas (by rfl)
  exact ⟨h.1, by rfl⟩

/-!
## Theorems: endpoint-area relations
-/

/-- `mapHas` after appending one pair at the back. -/
theorem mapHas_append_single (rels : List (Json × EndpointAreaRelation))
    (u' : Json) (r : EndpointAreaRelation) (k : Json) :
    mapHas (rels ++ [(u', r)]) k = (mapHas rels k || decide (u' = k)) := by
  simp [mapHas, List.any_append]

/-- A lookup misses exactly when the key is absent. -/
theorem relLookup_eq_none (rels : List (Json × EndpointAreaRelation)) (k : Json) :
    relLookup rels k = none ↔ mapHas rels k = false := by
  induction rels with
  | nil => simp [relLookup, mapHas]
  | cons pr rest ih =>
    simp only [relLookup, mapHas, List.any_cons] at ih ⊢
    by_cases h : pr.1 = k
    · rw [List.find?_cons_of_pos _ (by simpa using h)]
      simp [h]
    · rw [List.find?_cons_of_neg _ (by simpa using h)]
      simp [h, ih]

/-- Appending behind the map does not change a successful lookup. -/
theorem relLookup_append_of_isSome (rels extra : List (Json × EndpointAreaRelation))
    (k : Json) (h : (relLookup rels k).isSome = true) :
    relLookup (rels ++ extra) k = relLookup rels k := by
  cases hf : rels.find? (fun pr => decide (pr.1 = k)) with
  | none =>
    rw [relLookup, hf] at h
    simp at h
  | some pr =>
    rw [relLookup, List.find?_append, hf, relLookup, hf]
    rfl

/-- A fresh key appended at the back is found with its value. -/
theorem relLookup_append_self (rels : List (Json × EndpointAreaRelation))
    (u : Json) (r : EndpointAreaRelation) (h : mapHas rels u = false) :
    relLookup (rels ++ [(u, r)]) u = some r := by
  have hf : rels.find? (fun pr => decide (pr.1 = u)) = none := by
    rw [List.find?_eq_none]
    intro pr hpr
    simp only [decide_eq_true_eq]
    rw [mapHas, List.any_eq_false] at h
    simpa using h pr hpr
  rw [relLookup, List.find?_append, hf]
  simp [List.find?]

/-- Once the endpoint's key is present, the area loop only logs: the map is
unchanged. -/
theorem processAreaMaps_of_mapHas (epUuid epName : Json) (epParts : List Json)
    (ams : List AreaPartitionMap) (rels : List (Json × EndpointAreaRelation))
    (h : mapHas rels epUuid = true) :
    processAreaMaps epUuid epName epParts ams rels = rels := by
  induction ams with
  | nil => rfl
  | cons am rest ih =>
    simp only [processAreaMaps]
    split_ifs <;> exact ih

/-- With the endpoint's key absent, the area loop inserts exactly the relation
of the FIRST area map with a non-empty intersection (none if no area
intersects). -/
theorem processAreaMaps_characterization (epUuid epName : Json) (epParts : List Json)
    (ams : List AreaPartitionMap) (rels : List (Json × EndpointAreaRelation))
    (h : mapHas rels epUuid = false) :
    processAreaMaps epUuid epName epParts ams rels =
      rels ++ ((ams.find? (fun am => !(sharedPartitionsOf epParts am).isEmpty)).map
        (fun am₀ => (epUuid,
          mkRelation epUuid epName (sharedPartitionsOf epParts am₀) am₀))).toList := by
  induction ams with
  | nil => simp [processAreaMaps]
  | cons am rest ih =>
    by_cases hs : sharedPartitionsOf epParts am = []
    · have hp : (!(sharedPartitionsOf epParts am).isEmpty) = false := by simp [hs]
      rw [List.find?_cons_of_neg _ (by simp [hp])]
      simp only [processAreaMaps]
      rw [if_pos hs]
      exact ih
    · have hp : (!(sharedPartitionsOf epParts am).isEmpty) = true := by
        simp [List.isEmpty_iff, hs]
      rw [List.find?_cons_of_pos _ (by simp [hp])]
      simp only [processAreaMaps]
      rw [if_neg hs, if_neg (by simp [h])]
      rw [processAreaMaps_of_mapHas _ _ _ _ _ (by simp [mapHas_append_single, h])]
      simp

/-- Appending a fresh key preserves key distinctness. -/
theorem relKeysDistinct_append (rels : List (Json × EndpointAreaRelation))
    (u : Json) (r : EndpointAreaRelation)
    (hd : relKeysDistinct rels = true) (hk : mapHas rels u = false) :
    relKeysDistinct (rels ++ [(u, r)]) = true := by
  induction rels with
  | nil => simp [relKeysDistinct, mapHas]
  | cons pr rest ih =>
    have hk1 : (decide (pr.1 = u)) = false ∧ mapHas rest u = false := by
      simpa [mapHas, List.any_cons] using hk
    have hd1 : mapHas rest pr.1 = false ∧ relKeysDistinct rest = true := by
      simpa [relKeysDistinct, Bool.and_eq_true, Bool.not_eq_true'] using hd
    have hmh : mapHas (rest ++ [(u, r)]) pr.1 = false := by
      rw [mapHas_append_single, hd1.1]
      simp only [Bool.false_or, decide_eq_false_iff_not]
      intro hup
      rw [hup] at hk1
      simp at hk1
    have hrec := ih hd1.2 hk1.2
    show relKeysDistinct (pr :: (rest ++ [(u, r)])) = true
    simp [relKeysDistinct, hmh, hrec]

/-- The area loop preserves key distinctness. -/
theorem processAreaMaps_keeps_distinct (epUuid epName : Json) (epParts : List Json)
    (ams : List AreaPartitionMap) (rels : List (Json × EndpointAreaRelation))
    (hd : relKeysDistinct rels = true) :
    relKeysDistinct (processAreaMaps epUuid epName epParts ams rels) = true := by
  induction ams generalizing rels with
  | nil => exact hd
  | cons am rest ih =>
    simp only [processAreaMaps]
    split_ifs with h1 h2
    · exact ih rels hd
    · exact ih rels hd
    · exact ih _ (relKeysDistinct_append rels epUuid _ hd (by simpa using h2))

/-- One endpoint iteration preserves key distinctness. -/
theorem processEndpoint_keeps_distinct (ams : List AreaPartitionMap)
    (rels : List (Json × EndpointAreaRelation)) (ep : Json)
    (hd : relKeysDistinct rels = true) :
    relKeysDistinct (processEndpoint ams rels ep) = true := by
  cases h : epValidData ep with
  | none => simpa [processEndpoint, h] using hd
  | some d =>
    obtain ⟨u, nm, parts⟩ := d
    simp only [processEndpoint, h]
    exact processAreaMaps_keeps_distinct u nm parts ams rels hd

/-- The endpoint fold preserves key distinctness: at most one relation is ever
retained per endpoint key. -/
theorem relationsFold_keeps_distinct (ams : List AreaPartitionMap)
    (eps : List Json) (rels : List (Json × EndpointAreaRelation))
    (hd : relKeysDistinct rels = true) :
    relKeysDistinct (eps.foldl (processEndpoint ams) rels) = true := by
  induction eps generalizing rels with
  | nil => exact hd
  | cons e rest ih => exact ih _ (processEndpoint_keeps_distinct _ _ _ hd)

/-- One endpoint iteration either leaves the map unchanged or appends one pair
under a previously absent key. -/
theorem processEndpoint_extends (ams : List AreaPartitionMap)
    (rels : List (Json × EndpointAreaRelation)) (ep : Json) :
    processEndpoint ams rels ep = rels ∨
    ∃ u r, mapHas rels u = false ∧ processEndpoint ams rels ep = rels ++ [(u, r)] := by
  cases h : epValidData ep with
  | none => left; simp [processEndpoint, h]
  | some d =>
    obtain ⟨u, nm, parts⟩ := d
    by_cases hm : mapHas rels u = true
    · left
      simp only [processEndpoint, h]
      exact processAreaMaps_of_mapHas _ _ _ _ _ hm
    · have hm' : mapHas rels u = false := by simpa using hm
      simp only [processEndpoint, h]
      rw [processAreaMaps_characterization _ _ _ _ _ hm']
      cases hf : ams.find? (fun am => !(sharedPartitionsOf parts am).isEmpty) with
      | none => left; simp [hf]
      | some am₀ =>
        right
        exact ⟨u, mkRelation u nm (sharedPartitionsOf parts am₀) am₀, hm', by simp [hf]⟩

/-- One endpoint iteration does not disturb an existing entry. -/
theorem processEndpoint_preserves_lookup (ams : List AreaPartitionMap)
    (rels : List (Json × EndpointAreaRelation)) (ep : Json) (k : Json)
    (h : (relLookup rels k).isSome = true) :
    relLookup (processEndpoint ams rels ep) k = relLookup rels k := by
  rcases processEndpoint_extends ams rels ep with he | ⟨u, r, _, he⟩
  · rw [he]
  · rw [he]; exact relLookup_append_of_isSome _ _ _ h

/-- The endpoint fold does not disturb an existing entry: a stored relation is
never overwritten. -/
theorem relationsFold_preserves_lookup (ams : List AreaPartitionMap)
    (eps : List Json) (rels : List (Json × EndpointAreaRelation)) (k : Json)
    (h : (relLookup rels k).isSome = true) :
    relLookup (eps.foldl (processEndpoint ams) rels) k = relLookup rels k := by
  induction eps generalizing rels with
  | nil => rfl
  | cons e rest ih =>
    rw [List.foldl_cons]
    have h2 := processEndpoint_preserves_lookup ams rels e k h
    rw [ih _ (by rw [h2]; exact h), h2]

/-- An endpoint that does not carry the key `u` keeps `u` absent. -/
theorem processEndpoint_preserves_absent (ams : List AreaPartitionMap)
    (rels : List (Json × EndpointAreaRelation)) (ep : Json) (u : Json)
    (h : mapHas rels u = false)
    (hno : ∀ d, epValidData ep = some d → d.1 ≠ u) :
    mapHas (processEndpoint ams rels ep) u = false := by
  cases hd : epValidData ep with
  | none => simpa [processEndpoint, hd] using h
  | some d =>
    obtain ⟨u', nm', parts'⟩ := d
    have hu : u' ≠ u := hno _ hd
    simp only [processEndpoint, hd]
    by_cases hm : mapHas rels u' = true
    · rw [processAreaMaps_of_mapHas _ _ _ _ _ hm]
      exact h
    · have hm' : mapHas rels u' = false := by simpa using hm
      rw [processAreaMaps_characterization _ _ _ _ _ hm']
      cases hf : ams.find? (fun am => !(sharedPartitionsOf parts' am).isEmpty) with
      | none => simpa using h
      | some am₀ =>
        simp only [Option.map_some', Option.toList_some]
        rw [mapHas_append_single, h]
        simp [hu]

/-- If the unique endpoint carrying key `u` intersects no area map, the fold
keeps `u` absent. -/
theorem relationsFold_keeps_absent (ams : List AreaPartitionMap)
    (e u nm : Json) (parts : List Json)
    (hdata : epValidData e = some (u, nm, parts))
    (hnomatch : ams.find? (fun am => !(sharedPartitionsOf parts am).isEmpty) = none) :
    ∀ (eps : List Json) (rels : List (Json × EndpointAreaRelation)),
      mapHas rels u = false →
      (∀ e' ∈ eps, ∀ d, epValidData e' = some d → d.1 = u → e' = e) →
      mapHas (eps.foldl (processEndpoint ams) rels) u = false := by
  intro eps
  induction eps with
  | nil => intro rels h _; exact h
  | cons a rest ih =>
    intro rels h huniq
    rw [List.foldl_cons]
    apply ih
    · by_cases hau : ∀ d, epValidData a = some d → d.1 ≠ u
      · exact processEndpoint_preserves_absent ams rels a u h hau
      · push_neg at hau
        obtain ⟨d, hd, hdu⟩ := hau
        have hae : a = e := huniq a (List.mem_cons_self a rest) d hd hdu
        rw [hae]
        simp only [processEndpoint, hdata]
        rw [processAreaMaps_characterization _ _ _ _ _ h, hnomatch]
        simpa using h
    · intro e' he' d hd hdu
      exact huniq e' (List.mem_cons_of_mem a he') d hd hdu

/-- The accumulated-fold statement behind claim C1: starting from a map in
which `u` is absent, the fold stores for `u` exactly the relation built from
the FIRST area map whose partition set intersects the endpoint's declared
partitions (and nothing when no area intersects), provided `e` is the only
endpoint of the list carrying key `u`. -/
theorem relationsFold_first_match (ams : List AreaPartitionMap)
    (e u nm : Json) (parts : List Json)
    (hdata : epValidData e = some (u, nm, parts)) :
    ∀ (eps : List Json) (rels : List (Json × EndpointAreaRelation)),
      e ∈ eps →
      mapHas rels u = false →
      (∀ e' ∈ eps, ∀ d, epValidData e' = some d → d.1 = u → e' = e) →
      relLookup (eps.foldl (processEndpoint ams) rels) u =
        (ams.find? (fun am => !(sharedPartitionsOf parts am).isEmpty)).map
          (fun am₀ => mkRelation u nm (sharedPartitionsOf parts am₀) am₀) := by
  intro eps
  induction eps with
  | nil => intro rels he; cases he
  | cons a rest ih =>
    intro rels he h huniq
    rw [List.foldl_cons]
    by_cases hau : ∃ d, epValidData a = some d ∧ d.1 = u
    · obtain ⟨d, hd, hdu⟩ := hau
      have hae : a = e := huniq a (List.mem_cons_self a rest) d hd hdu
      rw [hae]
      simp only [processEndpoint, hdata]
      rw [processAreaMaps_characterization _ _ _ _ _ h]
      cases hf : ams.find? (fun am => !(sharedPartitionsOf parts am).isEmpty) with
      | some am₀ =>
        simp only [Option.map_some', Option.toList_some]
        have hsel := relLookup_append_self rels u
          (mkRelation u nm (sharedPartitionsOf parts am₀) am₀) h
        rw [relationsFold_preserves_lookup _ _ _ _ (by rw [hsel]; rfl), hsel]
      | none =>
        simp only [Option.map_none', Option.toList_none, List.append_nil]
        rw [relLookup_eq_none]
        exact relationsFold_keeps_absent ams e u nm parts hdata hf rest rels h
          (fun e' he' d' hd' hdu' => huniq e' (List.mem_cons_of_mem a he') d' hd' hdu')
    · push_neg at hau
      have hne : e ∈ rest := by
        rcases List.mem_cons.mp he with hea | h'
        · exact absurd rfl (hau (u, nm, parts) (hea ▸ hdata))
        · exact h'
      exact ih _ hne
        (processEndpoint_preserves_absent ams rels a u h hau)
        (fun e' he' d' hd' hdu' => huniq e' (List.mem_cons_of_mem a he') d' hd' hdu')

/-- C1: for an endpoint that passes the guards (truthy entry, truthy `uuid`
`u`, non-empty `partitions` list, computable display name) and is the only
endpoint carrying `u`, `buildEndpointAreaRelations` retains for `u` exactly
the relation built from the first area map (in map sequence order) whose
partition set has a non-empty intersection with the endpoint's declared
partitions; later intersections are only logged and never overwrite it, and
the whole relation map holds at most one relation per endpoint key. -/
theorem buildEndpointAreaRelations_first_match_wins
    (j : Json) (ams : List AreaPartitionMap) (areasL eps : List Json)
    (e u nm : Json) (parts : List Json)
    (hareas : getField j "areas" = some (Json.arr areasL))
    (heps : getField j "endpoints" = some (Json.arr eps))
    (hams : ams ≠ [])
    (he : e ∈ eps)
    (hdata : epValidData e = some (u, nm, parts))
    (huniq : ∀ e' ∈ eps, ∀ d, epValidData e' = some d → d.1 = u → e' = e) :
    relKeysDistinct (buildEndpointAreaRelations j ams) = true ∧
    relLookup (buildEndpointAreaRelations j ams) u =
      (ams.find? (fun am => !(sharedPartitionsOf parts am).isEmpty)).map
        (fun am₀ => mkRelation u nm (sharedPartitionsOf parts am₀) am₀) := by
  have hb : buildEndpointAreaRelations j ams = eps.foldl (processEndpoint ams) [] := by
    simp [buildEndpointAreaRelations, hareas, heps, hams]
  rw [hb]
  exact ⟨relationsFold_keeps_distinct ams eps [] rfl,
    relationsFold_first_match ams e u nm parts hdata eps [] he rfl huniq⟩

/-- Witness for `buildEndpointAreaRelations_first_match_wins` on the spec §8
example, with the concrete retained relation spelled out. -/
theorem buildEndpointAreaRelations_first_match_wins_witness :
    (relKeysDistinct (buildEndpointAreaRelations sampleDoc
        (buildAreaPartitionMaps sampleDoc)) = true ∧
     relLookup (buildEndpointAreaRelations sampleDoc (buildAreaPartitionMaps sampleDoc))
        (Json.str "e1") =
      ((buildAreaPartitionMaps sampleDoc).find?
          (fun am => !(sharedPartitionsOf [Json.str "p1"] am).isEmpty)).map
        (fun am₀ => mkRelation (Json.str "e1") (Json.str "Device_e1")
          (sharedPartitionsOf [Json.str "p1"] am₀) am₀)) ∧
    relLookup (buildEndpointAreaRelations sampleDoc (buildAreaPartitionMaps sampleDoc))
        (Json.str "e1") =
      some { endpointUuid := Json.str "e1", endpointName := Json.str "Device_e1",
             areaUuid := Json.str "a1", areaName := Json.str "Kitchen",
             partitionUuids := [Json.str "p1"],
             location := [Json.str "Partition_p1"] } := by
  refine ⟨?_, by rfl⟩
  exact buildEndpointAreaRelations_first_match_wins sampleDoc
    (buildAreaPartitionMaps sampleDoc) [sampleArea] [sampleEndpoint]
    sampleEndpoint (Json.str "e1") (Json.str "Device_e1") [Json.str "p1"]
    (by rfl) (by rfl) (by decide) (by simp) (by rfl)
    (by intro e' he' d hd hdu; simpa using he')
